import Mathlib

/-!
Storage contracts of package mrfusion (stores.go).

The source file declares the entity records (User, Role, Exploration, Cell,
Dashboard), two identifier types (UserID, ExplorationID) and three storage
contracts (AuthStore, ExplorationStore, DashboardStore) as Go interfaces.

The development has five layers:

* the entity records as Lean values (slices read as lists, Go int read as Int);
* the declarations themselves as data (field and method signatures), with the
  Go rules of type identity, assignability and conversion restricted to the
  type expressions that occur in the file;
* the storage contracts as records of operations over a backend state;
* the struct values of the records with their slice descriptors, a heap of
  backing arrays, and the call of Add in a caller frame;
* in-memory backends, built from the prose description of the operations.
-/

namespace Mrfusion

/-! ## Entity records -/

/-- Permission is a specific allowance for User or Role: type Permission string. -/
structure Permission where
  val : String
  deriving DecidableEq, Repr

/-- Go: type Permissions []Permission. -/
abbrev Permissions := List Permission

mutual
/-- Represents an authenticated user (struct User). -/
inductive User where
  | mk (ID : Int) (Name : String) (Permissions : Permissions) (Roles : List Role)
/-- Role is a set of permissions that may be associated with Users (struct Role). -/
inductive Role where
  | mk (ID : Int) (Name : String) (Permissions : Permissions) (Users : List User)
end

/-- Field ID of User. -/
def User.ID : User → Int
  | .mk i _ _ _ => i

/-- Field Name of User. -/
def User.Name : User → String
  | .mk _ n _ _ => n

/-- Field Permissions of User. -/
def User.Permissions : User → Permissions
  | .mk _ _ p _ => p

/-- Field Roles of User. -/
def User.Roles : User → List Role
  | .mk _ _ _ r => r

/-- Field ID of Role. -/
def Role.ID : Role → Int
  | .mk i _ _ _ => i

/-- Field Name of Role. -/
def Role.Name : Role → String
  | .mk _ n _ _ => n

/-- Field Permissions of Role. -/
def Role.Permissions : Role → Permissions
  | .mk _ _ p _ => p

/-- Field Users of Role. -/
def Role.Users : Role → List User
  | .mk _ _ _ u => u

/-- UserID is a unique ID for a source user: type UserID int. -/
structure UserID where
  val : Int
  deriving DecidableEq, Repr

/-- ExplorationID is a unique ID for an exploration: type ExplorationID int. -/
structure ExplorationID where
  val : Int
  deriving DecidableEq, Repr

/-- Instants of time.Time, read as a count of clock units since a fixed origin. -/
abbrev Time := Int

/-- Exploration is a serialization of front-end Data Explorer. -/
structure Exploration where
  ID : ExplorationID
  Name : String
  UserID : UserID
  Data : String
  CreatedAt : Time
  UpdatedAt : Time
  deriving DecidableEq, Repr

/-- Modelled from the spec: the declaration of type Query is not part of
stores.go; the spec describes a Query as an uninterpreted identifier or
description of a time-series query, so it is read as a string. -/
structure Query where
  val : String
  deriving DecidableEq, Repr

/-- Cell is a rectangle and multiple time series queries to visualize.
The int32 fields are read as integers; no arithmetic is done on them. -/
structure Cell where
  X : Int
  Y : Int
  W : Int
  H : Int
  Queries : List Query
  deriving DecidableEq, Repr

/-- Dashboard is a collection of Cells for visualization. -/
structure Dashboard where
  ID : Int
  Cells : List Cell
  deriving DecidableEq, Repr

mutual
/-- Nesting depth of a User: one more than the deepest Role it embeds.
Being a total function, it is a recursive expansion of the whole value. -/
def User.depth : User → Nat
  | .mk _ _ _ rs => 1 + Role.depthList rs
/-- Nesting depth of a Role: one more than the deepest User it embeds. -/
def Role.depth : Role → Nat
  | .mk _ _ _ us => 1 + User.depthList us
/-- Largest depth among a list of Roles. -/
def Role.depthList : List Role → Nat
  | [] => 0
  | r :: rs => max (Role.depth r) (Role.depthList rs)
/-- Largest depth among a list of Users. -/
def User.depthList : List User → Nat
  | [] => 0
  | u :: us => max (User.depth u) (User.depthList us)
end

/-! ## The declarations of stores.go as data -/

/-- Type expressions that occur in stores.go. -/
inductive GoType where
  | int
  | int32
  | string
  | error
  | named (name : String)
  | imported (pkg : String) (name : String)
  | slice (elem : GoType)
  deriving DecidableEq, Repr

/-- A struct field: its name and declared type. -/
structure Field where
  name : String
  typ : GoType
  deriving DecidableEq, Repr

/-- An interface method: its name, parameter types and result types, in order. -/
structure Method where
  name : String
  params : List GoType
  results : List GoType
  deriving DecidableEq, Repr

namespace Decl

/-- The type context.Context of golang.org/x/net/context. -/
def ctxT : GoType := .imported "context" "Context"

/-- The type time.Time. -/
def timeT : GoType := .imported "time" "Time"

/-- Defined types with a non-struct underlying type, as declared. -/
def defined : List (String × GoType) :=
  [ ("Permission", .string),
    ("Permissions", .slice (.named "Permission")),
    ("UserID", .int),
    ("ExplorationID", .int) ]

/-- Struct declarations of stores.go with their fields in order. The three
fields of AuthStore have anonymous interface types, listed in interfaces under
the names AuthStore.Permissions, AuthStore.Users and AuthStore.Roles. -/
def structs : List (String × List Field) :=
  [ ("User",
      [ ⟨"ID", .int⟩, ⟨"Name", .string⟩, ⟨"Permissions", .named "Permissions"⟩,
        ⟨"Roles", .slice (.named "Role")⟩ ]),
    ("Role",
      [ ⟨"ID", .int⟩, ⟨"Name", .string⟩, ⟨"Permissions", .named "Permissions"⟩,
        ⟨"Users", .slice (.named "User")⟩ ]),
    ("Exploration",
      [ ⟨"ID", .named "ExplorationID"⟩, ⟨"Name", .string⟩, ⟨"UserID", .named "UserID"⟩,
        ⟨"Data", .string⟩, ⟨"CreatedAt", timeT⟩, ⟨"UpdatedAt", timeT⟩ ]),
    ("Cell",
      [ ⟨"X", .int32⟩, ⟨"Y", .int32⟩, ⟨"W", .int32⟩, ⟨"H", .int32⟩,
        ⟨"Queries", .slice (.named "Query")⟩ ]),
    ("Dashboard",
      [ ⟨"ID", .int⟩, ⟨"Cells", .slice (.named "Cell")⟩ ]) ]

/-- Interface declarations of stores.go with their methods in order. -/
def interfaces : List (String × List Method) :=
  [ ("AuthStore.Permissions",
      [ ⟨"All", [ctxT], [.named "Permissions", .error]⟩ ]),
    ("AuthStore.Users",
      [ ⟨"Add", [ctxT, .named "User"], [.error]⟩,
        ⟨"Delete", [ctxT, .named "User"], [.error]⟩,
        ⟨"Get", [ctxT, .int], [.error]⟩,
        ⟨"Update", [ctxT, .named "User"], [.error]⟩ ]),
    ("AuthStore.Roles",
      [ ⟨"Add", [ctxT, .named "Role"], [.error]⟩,
        ⟨"Delete", [ctxT, .named "Role"], [.error]⟩,
        ⟨"Get", [ctxT, .int], [.error]⟩,
        ⟨"Update", [ctxT, .named "Role"], [.error]⟩ ]),
    ("ExplorationStore",
      [ ⟨"Query", [ctxT, .named "UserID"], [.slice (.named "Exploration"), .error]⟩,
        ⟨"Add", [ctxT, .named "Exploration"], [.error]⟩,
        ⟨"Delete", [ctxT, .named "Exploration"], [.error]⟩,
        ⟨"Get", [ctxT, .named "ExplorationID"], [.named "Exploration", .error]⟩,
        ⟨"Update", [ctxT, .named "Exploration"], [.error]⟩ ]),
    ("DashboardStore",
      [ ⟨"Add", [ctxT, .named "Dashboard"], [.error]⟩,
        ⟨"Delete", [ctxT, .named "Dashboard"], [.error]⟩,
        ⟨"Get", [ctxT, .int], [.error]⟩,
        ⟨"Update", [ctxT, .named "Dashboard"], [.error]⟩ ]) ]

/-- Declared type of a field of a struct, when both exist. -/
def fieldType (s f : String) : Option GoType :=
  match structs.lookup s with
  | none => none
  | some fs => (fs.find? (fun fd => fd.name == f)).map Field.typ

/-- Declaration of a method of an interface, when both exist. -/
def method (i m : String) : Option Method :=
  match interfaces.lookup i with
  | none => none
  | some ms => ms.find? (fun md => md.name == m)

/-- Go type identity on the type expressions of the file: a named type is
identical only to itself, slice types are identical when their element types
are. -/
def identical (a b : GoType) : Bool := decide (a = b)

/-- Underlying type. A defined type takes the underlying type of its
declaration; a struct or interface type declared by name stands for its own
type literal (no two struct declarations of the file have the same fields). -/
def underlying : GoType → GoType
  | .named n => (defined.lookup n).getD (.named n)
  | t => t

/-- Named types in the sense of the Go specification (predeclared types and
types introduced by a type declaration); a slice type literal is not named. -/
def isNamed : GoType → Bool
  | .slice _ => false
  | _ => true

/-- Assignability of a variable of type v to type t, for the non-interface,
non-constant cases: identical types, or identical underlying types with at
least one of the two not a named type. -/
def assignable (v t : GoType) : Bool :=
  identical v t || (identical (underlying v) (underlying t) && (!isNamed v || !isNamed t))

/-- Integer types among the type expressions of the file. -/
def isInteger (t : GoType) : Bool :=
  match underlying t with
  | .int => true
  | .int32 => true
  | _ => false

/-- Explicit conversion T(x) of a variable x of type v: allowed when x is
assignable to t, when the underlying types are identical, or when both are
integer types. -/
def convertible (v t : GoType) : Bool :=
  assignable v t || identical (underlying v) (underlying t) || (isInteger v && isInteger t)

/-- Whether a value of argument type a is accepted without conversion at
parameter k of method m of interface i. -/
def acceptsArg (i m : String) (k : Nat) (a : GoType) : Bool :=
  match method i m with
  | none => false
  | some md =>
    match md.params.get? k with
    | none => false
    | some p => assignable a p

/-- Whether a value of type a is accepted without conversion in field f of
struct s. -/
def acceptsField (s f : String) (a : GoType) : Bool :=
  match fieldType s f with
  | none => false
  | some t => assignable a t

end Decl

/-! ## The storage contracts as records of operations -/

/-- Modelled from the spec: stores.go returns the predeclared Go type error and
declares no error values; the spec names five kinds of failure. -/
inductive ErrorKind where
  | ValidationKind
  | DuplicateKind
  | NotFoundKind
  | CancelledKind
  | BackendKind
  deriving DecidableEq, Repr

/-- The request context (context.Context) as seen by one call: whether it is
already cancelled or past its deadline when the call is made. -/
structure Context where
  cancelled : Bool
  deriving DecidableEq, Repr

/-- A Go result of type error: none is the nil error. -/
abbrev GoError := Option ErrorKind

/-- Field Permissions of AuthStore: an interface with the single method All.
A backend is a state type with the methods as state transformers. -/
structure PermissionsStore (σ : Type) where
  All : Context → σ → Except ErrorKind Permissions × σ

/-- Field Users of AuthStore: user management for the AuthStore. -/
structure UsersStore (σ : Type) where
  Add : Context → User → σ → GoError × σ
  Delete : Context → User → σ → GoError × σ
  Get : Context → Int → σ → GoError × σ
  Update : Context → User → σ → GoError × σ

/-- Field Roles of AuthStore: roles are sets of permissions. -/
structure RolesStore (σ : Type) where
  Add : Context → Role → σ → GoError × σ
  Delete : Context → Role → σ → GoError × σ
  Get : Context → Int → σ → GoError × σ
  Update : Context → Role → σ → GoError × σ

/-- AuthStore is the storage and retrieval of authentication information. -/
structure AuthStore (σp σu σr : Type) where
  Permissions : PermissionsStore σp
  Users : UsersStore σu
  Roles : RolesStore σr

/-- ExplorationStore stores front-end serializations of data explorer sessions. -/
structure ExplorationStore (σ : Type) where
  Query : Context → UserID → σ → Except ErrorKind (List Exploration) × σ
  Add : Context → Exploration → σ → GoError × σ
  Delete : Context → Exploration → σ → GoError × σ
  Get : Context → ExplorationID → σ → Except ErrorKind Exploration × σ
  Update : Context → Exploration → σ → GoError × σ

/-- DashboardStore stores dashboards and associated Cells. -/
structure DashboardStore (σ : Type) where
  Add : Context → Dashboard → σ → GoError × σ
  Delete : Context → Dashboard → σ → GoError × σ
  Get : Context → Int → σ → GoError × σ
  Update : Context → Dashboard → σ → GoError × σ

/-! ## Go values with slice fields, and calls of Add -/

/-- A Go slice value: the descriptor of a segment of a backing array, that is
the array (named by its index in the heap), an offset, a length and a
capacity. Copying a slice copies the descriptor, not the elements. -/
structure Slice where
  array : Nat
  off : Nat
  len : Nat
  cap : Nat
  deriving DecidableEq, Repr

/-- The struct value of a User as an assignment or a call copies it: the fields
ID and Name and the descriptors of the slice fields Permissions and Roles. -/
structure UserValue where
  ID : Int
  Name : String
  Permissions : Slice
  Roles : Slice
  deriving DecidableEq, Repr

/-- The struct value of a Role: ID, Name and the descriptors of the slice
fields Permissions and Users. -/
structure RoleValue where
  ID : Int
  Name : String
  Permissions : Slice
  Users : Slice
  deriving DecidableEq, Repr

/-- The struct value of a Cell: the rectangle and the descriptor of Queries. -/
structure CellValue where
  X : Int
  Y : Int
  W : Int
  H : Int
  Queries : Slice
  deriving DecidableEq, Repr

/-- The struct value of a Dashboard: ID and the descriptor of Cells. An
Exploration has no slice field: its struct value is the record Exploration. -/
structure DashboardValue where
  ID : Int
  Cells : Slice
  deriving DecidableEq, Repr

/-- The backing arrays that slices point into, by element type. The heap is
shared by a caller and the method it calls. -/
structure Heap where
  permissions : List (List Permission)
  roles : List (List RoleValue)
  users : List (List UserValue)
  cells : List (List CellValue)
  queries : List (List Query)
  deriving DecidableEq, Repr

/-- The elements a slice of Permission denotes in a heap. -/
def Heap.permissionsOf (h : Heap) (sl : Slice) : List Permission :=
  ((h.permissions.getD sl.array []).drop sl.off).take sl.len

/-- The elements a slice of Role denotes in a heap. -/
def Heap.rolesOf (h : Heap) (sl : Slice) : List RoleValue :=
  ((h.roles.getD sl.array []).drop sl.off).take sl.len

/-- The elements a slice of User denotes in a heap. -/
def Heap.usersOf (h : Heap) (sl : Slice) : List UserValue :=
  ((h.users.getD sl.array []).drop sl.off).take sl.len

/-- The elements a slice of Cell denotes in a heap. -/
def Heap.cellsOf (h : Heap) (sl : Slice) : List CellValue :=
  ((h.cells.getD sl.array []).drop sl.off).take sl.len

/-- The elements a slice of Query denotes in a heap. -/
def Heap.queriesOf (h : Heap) (sl : Slice) : List Query :=
  ((h.queries.getD sl.array []).drop sl.off).take sl.len

/-- The assignment sl[i] = p on a slice of Permission, for i within the length
of the slice: it writes into the backing array. -/
def Heap.setPermission (h : Heap) (sl : Slice) (i : Nat) (p : Permission) : Heap :=
  if i < sl.len then
    { h with
      permissions :=
        h.permissions.set sl.array ((h.permissions.getD sl.array []).set (sl.off + i) p) }
  else h

/-- The assignment sl[i] = c on a slice of Cell, for i within the length of the
slice: it writes into the backing array. -/
def Heap.setCell (h : Heap) (sl : Slice) (i : Nat) (c : CellValue) : Heap :=
  if i < sl.len then
    { h with cells := h.cells.set sl.array ((h.cells.getD sl.array []).set (sl.off + i) c) }
  else h

/-- The body of a method with the signature Add(context.Context, T) error, T a
struct type: it runs on its own parameter variable, initialised with a copy of
the argument, on the shared heap and on the state of the backend; it yields the
final value of its parameter variable, the error it returns, the heap and the
state it leaves. -/
abbrev AddBody (ε σ : Type) := Context → ε → Heap → σ → ε × GoError × Heap × σ

/-- The frame of a caller around the statement err = store.Add(ctx, e): the
local variable e that is passed as argument and the variable receiving the
result. -/
structure Caller (ε : Type) where
  e : ε
  err : GoError
  deriving DecidableEq, Repr

/-- Execution of err = store.Add(ctx, e) in a caller frame. The parameter
variable of the method is a copy of e and is gone when the method returns; the
only result, the error, is stored in err; the heap is the one the method
leaves. -/
def Caller.callAdd {ε σ : Type} (c : Caller ε) (add : AddBody ε σ) (ctx : Context)
    (h : Heap) (s : σ) : Caller ε × Heap × σ :=
  ({ e := c.e, err := (add ctx c.e h s).2.1 }, (add ctx c.e h s).2.2.1, (add ctx c.e h s).2.2.2)

/-- A body of Users.Add that overwrites the first permission of its argument,
when there is one, and returns nil. -/
def scribbleUsers : AddBody UserValue Unit :=
  fun _ u h s => (u, none, h.setPermission u.Permissions 0 ⟨"admin"⟩, s)

/-- A body of DashboardStore.Add that overwrites the first cell of its
argument, when there is one, and returns nil. -/
def scribbleDashboards : AddBody DashboardValue Unit :=
  fun _ d h s => (d, none, h.setCell d.Cells 0 ⟨9, 9, 9, 9, ⟨0, 0, 0, 0⟩⟩, s)

/-- A body of Users.Add that stores the next ID of the backend in the field ID
of its parameter variable and returns nil. -/
def assignUsers : AddBody UserValue Int :=
  fun _ u h n => ({ u with ID := n }, none, h, n + 1)

/-- A caller holding a User with ID 1 and the single permission read. -/
def aliceFrame : Caller UserValue :=
  { e := ⟨1, "alice", ⟨0, 0, 1, 1⟩, ⟨0, 0, 0, 0⟩⟩, err := none }

/-- The heap of aliceFrame: one array of permissions, one empty array of roles. -/
def aliceHeap : Heap :=
  { permissions := [[⟨"read"⟩]], roles := [[]], users := [], cells := [], queries := [] }

/-- A caller holding a Dashboard with ID 1 and one cell. -/
def boardFrame : Caller DashboardValue :=
  { e := ⟨1, ⟨0, 0, 1, 1⟩⟩, err := none }

/-- The heap of boardFrame: one array of cells, one array of queries. -/
def boardHeap : Heap :=
  { permissions := [], roles := [], users := [], cells := [[⟨0, 0, 4, 2, ⟨0, 0, 1, 1⟩⟩]],
    queries := [[⟨"q1"⟩]] }

/-! ## In-memory backends -/

/-- Modelled from the spec: no backend of ExplorationStore is part of stores.go.
An in-memory backend keeps the stored records in insertion order, the next
identifier to assign, and the current reading of the clock. -/
structure MemExplorations where
  rows : List Exploration
  nextID : Int
  now : Time
  deriving DecidableEq, Repr

namespace MemExplorations

/-- Modelled from the spec: the backend before any call, at clock reading t. -/
def empty (t : Time) : MemExplorations := { rows := [], nextID := 1, now := t }

/-- Modelled from the spec: the passage of d clock units between two calls. -/
def advance (d : Nat) (s : MemExplorations) : MemExplorations :=
  { s with now := s.now + d }

/-- Modelled from the spec: Query returns all explorations owned by the given
user, by CreatedAt ascending (insertion order); the result is empty, not a
failure, when the user owns none. -/
def Query (ctx : Context) (userID : UserID) (s : MemExplorations) :
    Except ErrorKind (List Exploration) :=
  if ctx.cancelled then .error .CancelledKind
  else .ok (s.rows.filter (fun r => r.UserID == userID))

/-- Modelled from the spec: Add fails with ValidationKind if UserID is unset
(the zero value); otherwise the backend assigns ID, CreatedAt and UpdatedAt
(equal to CreatedAt), ignoring the values the caller supplied for them. -/
def Add (ctx : Context) (e : Exploration) (s : MemExplorations) :
    GoError × MemExplorations :=
  if ctx.cancelled then (some .CancelledKind, s)
  else if e.UserID.val = 0 then (some .ValidationKind, s)
  else
    (none,
      { s with
        rows := s.rows ++ [{ e with ID := ⟨s.nextID⟩, CreatedAt := s.now, UpdatedAt := s.now }],
        nextID := s.nextID + 1 })

/-- Modelled from the spec: Delete removes by ID; NotFoundKind if absent. -/
def Delete (ctx : Context) (e : Exploration) (s : MemExplorations) :
    GoError × MemExplorations :=
  if ctx.cancelled then (some .CancelledKind, s)
  else if s.rows.any (fun r => r.ID == e.ID) then
    (none, { s with rows := s.rows.filter (fun r => r.ID != e.ID) })
  else (some .NotFoundKind, s)

/-- Modelled from the spec: Get returns the full record; NotFoundKind if absent. -/
def Get (ctx : Context) (ID : ExplorationID) (s : MemExplorations) :
    Except ErrorKind Exploration :=
  if ctx.cancelled then .error .CancelledKind
  else
    match s.rows.find? (fun r => r.ID == ID) with
    | some r => .ok r
    | none => .error .NotFoundKind

/-- Modelled from the spec: Update overwrites Name and Data for the given ID
and sets UpdatedAt to the current time; CreatedAt does not change;
NotFoundKind if absent. -/
def Update (ctx : Context) (e : Exploration) (s : MemExplorations) :
    GoError × MemExplorations :=
  if ctx.cancelled then (some .CancelledKind, s)
  else if s.rows.any (fun r => r.ID == e.ID) then
    (none,
      { s with
        rows := s.rows.map (fun r =>
          if r.ID == e.ID then { r with Name := e.Name, Data := e.Data, UpdatedAt := s.now }
          else r) })
  else (some .NotFoundKind, s)

/-- The in-memory backend as an ExplorationStore; Query and Get leave the
state as it is. -/
def store : ExplorationStore MemExplorations where
  Query := fun ctx u s => (Query ctx u s, s)
  Add := Add
  Delete := Delete
  Get := fun ctx i s => (Get ctx i s, s)
  Update := Update

/-- States the backend can be in: the empty store, then any sequence of Add,
Update and Delete calls (successful or not) and of clock advances. -/
inductive Reachable : MemExplorations → Prop where
  | init (t : Time) : Reachable (empty t)
  | add {s : MemExplorations} (ctx : Context) (e : Exploration) :
      Reachable s → Reachable (Add ctx e s).2
  | update {s : MemExplorations} (ctx : Context) (e : Exploration) :
      Reachable s → Reachable (Update ctx e s).2
  | delete {s : MemExplorations} (ctx : Context) (e : Exploration) :
      Reachable s → Reachable (Delete ctx e s).2
  | tick {s : MemExplorations} (d : Nat) :
      Reachable s → Reachable (advance d s)

/-- Well-formedness of a state: stored identifiers are below the next one to
assign and pairwise distinct, and no record is updated before it is created or
after the current clock reading. -/
structure WF (s : MemExplorations) : Prop where
  fresh : ∀ r ∈ s.rows, r.ID.val < s.nextID
  nodup : (s.rows.map (fun r => r.ID)).Nodup
  times : ∀ r ∈ s.rows, r.CreatedAt ≤ r.UpdatedAt ∧ r.UpdatedAt ≤ s.now

end MemExplorations

/-- Modelled from the spec: no backend of AuthStore.Users is part of stores.go.
The in-memory backend keeps the stored users and the next ID to assign. -/
structure MemUsers where
  rows : List User
  nextID : Int

namespace MemUsers

/-- Modelled from the spec: the backend before any call. -/
def empty : MemUsers := { rows := [], nextID := 1 }

/-- Modelled from the spec: Add creates a new user; Name must be non-empty
(ValidationKind), must not conflict with an existing identity (DuplicateKind),
and the ID is assigned by the backend. -/
def Add (ctx : Context) (u : User) (s : MemUsers) : GoError × MemUsers :=
  if ctx.cancelled then (some .CancelledKind, s)
  else if u.Name = "" then (some .ValidationKind, s)
  else if s.rows.any (fun r => r.Name == u.Name) then (some .DuplicateKind, s)
  else
    (none,
      { rows := s.rows ++ [User.mk s.nextID u.Name u.Permissions u.Roles],
        nextID := s.nextID + 1 })

/-- Modelled from the spec: Delete removes the user identified by its ID;
NotFoundKind if absent. -/
def Delete (ctx : Context) (u : User) (s : MemUsers) : GoError × MemUsers :=
  if ctx.cancelled then (some .CancelledKind, s)
  else if s.rows.any (fun r => r.ID == u.ID) then
    (none, { s with rows := s.rows.filter (fun r => r.ID != u.ID) })
  else (some .NotFoundKind, s)

/-- Modelled from the spec, with the result type of the source (error only):
Get looks the user up by ID; NotFoundKind if absent. -/
def Get (ctx : Context) (ID : Int) (s : MemUsers) : GoError :=
  if ctx.cancelled then some .CancelledKind
  else if s.rows.any (fun r => r.ID == ID) then none
  else some .NotFoundKind

/-- Modelled from the spec: Update overwrites permissions and roles of the
user matched by ID; NotFoundKind if the ID does not exist. -/
def Update (ctx : Context) (u : User) (s : MemUsers) : GoError × MemUsers :=
  if ctx.cancelled then (some .CancelledKind, s)
  else if s.rows.any (fun r => r.ID == u.ID) then
    (none,
      { s with
        rows := s.rows.map (fun r =>
          if r.ID == u.ID then User.mk r.ID r.Name u.Permissions u.Roles else r) })
  else (some .NotFoundKind, s)

/-- The in-memory backend as the Users field of an AuthStore. -/
def store : UsersStore MemUsers where
  Add := Add
  Delete := Delete
  Get := fun ctx i s => (Get ctx i s, s)
  Update := Update

end MemUsers

/-- Modelled from the spec: no backend of AuthStore.Roles is part of stores.go.
The in-memory backend keeps the stored roles and the next ID to assign. -/
structure MemRoles where
  rows : List Role
  nextID : Int

namespace MemRoles

/-- Modelled from the spec: the backend before any call. -/
def empty : MemRoles := { rows := [], nextID := 1 }

/-- Modelled from the spec: Add for roles has the shape and the failures of
Add for users. -/
def Add (ctx : Context) (r : Role) (s : MemRoles) : GoError × MemRoles :=
  if ctx.cancelled then (some .CancelledKind, s)
  else if r.Name = "" then (some .ValidationKind, s)
  else if s.rows.any (fun q => q.Name == r.Name) then (some .DuplicateKind, s)
  else
    (none,
      { rows := s.rows ++ [Role.mk s.nextID r.Name r.Permissions r.Users],
        nextID := s.nextID + 1 })

/-- Modelled from the spec: Delete removes the role identified by its ID;
NotFoundKind if absent. -/
def Delete (ctx : Context) (r : Role) (s : MemRoles) : GoError × MemRoles :=
  if ctx.cancelled then (some .CancelledKind, s)
  else if s.rows.any (fun q => q.ID == r.ID) then
    (none, { s with rows := s.rows.filter (fun q => q.ID != r.ID) })
  else (some .NotFoundKind, s)

/-- Modelled from the spec, with the result type of the source (error only):
Get looks the role up by ID; NotFoundKind if absent. -/
def Get (ctx : Context) (ID : Int) (s : MemRoles) : GoError :=
  if ctx.cancelled then some .CancelledKind
  else if s.rows.any (fun q => q.ID == ID) then none
  else some .NotFoundKind

/-- Modelled from the spec: Update overwrites permissions and users of the
role matched by ID; NotFoundKind if the ID does not exist. -/
def Update (ctx : Context) (r : Role) (s : MemRoles) : GoError × MemRoles :=
  if ctx.cancelled then (some .CancelledKind, s)
  else if s.rows.any (fun q => q.ID == r.ID) then
    (none,
      { s with
        rows := s.rows.map (fun q =>
          if q.ID == r.ID then Role.mk q.ID q.Name r.Permissions r.Users else q) })
  else (some .NotFoundKind, s)

/-- The in-memory backend as the Roles field of an AuthStore. -/
def store : RolesStore MemRoles where
  Add := Add
  Delete := Delete
  Get := fun ctx i s => (Get ctx i s, s)
  Update := Update

end MemRoles

/-- Modelled from the spec: no backend of DashboardStore is part of stores.go.
The in-memory backend keeps the stored dashboards and the next ID to assign. -/
structure MemDashboards where
  rows : List Dashboard
  nextID : Int
  deriving DecidableEq, Repr

namespace MemDashboards

/-- Modelled from the spec: the backend before any call. -/
def empty : MemDashboards := { rows := [], nextID := 1 }

/-- Modelled from the spec: Add assigns ID on success; the cells are stored as
given. -/
def Add (ctx : Context) (d : Dashboard) (s : MemDashboards) : GoError × MemDashboards :=
  if ctx.cancelled then (some .CancelledKind, s)
  else (none, { rows := s.rows ++ [{ d with ID := s.nextID }], nextID := s.nextID + 1 })

/-- Modelled from the spec: Delete removes by ID; NotFoundKind if absent. -/
def Delete (ctx : Context) (d : Dashboard) (s : MemDashboards) : GoError × MemDashboards :=
  if ctx.cancelled then (some .CancelledKind, s)
  else if s.rows.any (fun r => r.ID == d.ID) then
    (none, { s with rows := s.rows.filter (fun r => r.ID != d.ID) })
  else (some .NotFoundKind, s)

/-- Modelled from the spec, with the result type of the source (error only):
Get looks the dashboard up by ID; NotFoundKind if absent. -/
def Get (ctx : Context) (ID : Int) (s : MemDashboards) : GoError :=
  if ctx.cancelled then some .CancelledKind
  else if s.rows.any (fun r => r.ID == ID) then none
  else some .NotFoundKind

/-- Modelled from the spec: Update replaces the Cells sequence wholesale for
the given ID; NotFoundKind if absent. -/
def Update (ctx : Context) (d : Dashboard) (s : MemDashboards) : GoError × MemDashboards :=
  if ctx.cancelled then (some .CancelledKind, s)
  else if s.rows.any (fun r => r.ID == d.ID) then
    (none,
      { s with
        rows := s.rows.map (fun r => if r.ID == d.ID then { r with Cells := d.Cells } else r) })
  else (some .NotFoundKind, s)

/-- The in-memory backend as a DashboardStore. -/
def store : DashboardStore MemDashboards where
  Add := Add
  Delete := Delete
  Get := fun ctx i s => (Get ctx i s, s)
  Update := Update

end MemDashboards

/-! ## Sample values -/

/-- A role without listed users. -/
def adminRole : Role := Role.mk 1 "admin" [⟨"read"⟩, ⟨"write"⟩] []

/-- A user holding adminRole. -/
def alice : User := User.mk 1 "alice" [⟨"read"⟩] [adminRole]

/-- A user without roles. -/
def bob : User := User.mk 1 "bob" [] []

/-- A role listing bob among its users. -/
def staffRole : Role := Role.mk 2 "staff" [] [bob]

/-- The record of alice without her roles expanded. -/
def aliceEntry : User := User.mk 1 "alice" [⟨"read"⟩] []

/-- The admin role listing alice by a record without expanded roles. -/
def adminView : Role := Role.mk 1 "admin" [⟨"read"⟩, ⟨"write"⟩] [aliceEntry]

/-- The user alice holding adminView. -/
def aliceView : User := User.mk 1 "alice" [⟨"read"⟩] [adminView]

/-- The context of a call that has not been cancelled. -/
def live : Context := { cancelled := false }

/-- A dashboard with one cell. -/
def board : Dashboard := { ID := 1, Cells := [⟨0, 0, 4, 2, [⟨"q1"⟩]⟩] }

/-- An exploration of user 7. -/
def sketch : Exploration :=
  { ID := ⟨1⟩, Name := "cpu", UserID := ⟨7⟩, Data := "blob", CreatedAt := 0, UpdatedAt := 0 }

/-- Three explorations of two users, added to the empty backend one after the
other, with the clock advancing in between. -/
def population : MemExplorations :=
  (MemExplorations.Add live { sketch with Name := "mem", UserID := ⟨8⟩ }
    (MemExplorations.advance 3
      (MemExplorations.Add live { sketch with Name := "disk" }
        (MemExplorations.advance 2
          (MemExplorations.Add live sketch (MemExplorations.empty 0)).2)).2)).2

/-- The backend after sketch has been added to the empty backend at time 0. -/
def added : MemExplorations := (MemExplorations.Add live sketch (MemExplorations.empty 0)).2

/-- The backend after one clock unit has passed since added and sketch, renamed,
has been updated. -/
def updated : MemExplorations :=
  (MemExplorations.Update live { sketch with Name := "cpu2" } (MemExplorations.advance 1 added)).2

/-- The backend after sketch has been updated at the clock reading at which it
was added. -/
def sameReading : MemExplorations := (MemExplorations.Update live sketch added).2

namespace Decl

/-- The interfaces whose method Get has a result besides the error. -/
def getsWithValue : List String :=
  (interfaces.filter (fun p =>
    (p.2.find? (fun md => md.name == "Get")).any (fun md => md.results != [GoType.error]))).map
    Prod.fst

/-- The interfaces that declare a method Get. -/
def getters : List String :=
  (interfaces.filter (fun p => p.2.any (fun md => md.name == "Get"))).map Prod.fst

end Decl

/-! ## Lemmas on lists of records keyed by an identifier -/

theorem any_key_filter_ne {α κ : Type} [DecidableEq κ] (k : α → κ) (i : κ) (l : List α) :
    (l.filter (fun r => k r != i)).any (fun r => k r == i) = false := by
  rw [List.any_eq_false]
  intro x hx
  have h := (List.mem_filter.mp hx).2
  simpa using h

theorem find_key_filter_ne {α κ : Type} [DecidableEq κ] (k : α → κ) (i : κ) (l : List α) :
    (l.filter (fun r => k r != i)).find? (fun r => k r == i) = none := by
  rw [List.find?_eq_none]
  intro x hx
  have h := (List.mem_filter.mp hx).2
  simpa using h

/-! ## Nesting depth of User and Role values -/

theorem Role.depth_le_of_mem_list {r : Role} {rs : List Role} (h : r ∈ rs) :
    r.depth ≤ Role.depthList rs := by
  induction rs with
  | nil => cases h
  | cons a t ih =>
    rw [Role.depthList]
    rcases List.mem_cons.mp h with h1 | h1
    · subst h1
      exact le_max_left _ _
    · exact le_trans (ih h1) (le_max_right _ _)

theorem User.depth_le_of_mem_users {u : User} {us : List User} (h : u ∈ us) :
    u.depth ≤ User.depthList us := by
  induction us with
  | nil => cases h
  | cons a t ih =>
    rw [User.depthList]
    rcases List.mem_cons.mp h with h1 | h1
    · subst h1
      exact le_max_left _ _
    · exact le_trans (ih h1) (le_max_right _ _)

theorem Role.depth_lt_of_mem_Roles {u : User} {r : Role} (h : r ∈ u.Roles) :
    r.depth < u.depth := by
  cases u with
  | mk i n p rs =>
    have h1 : r.depth ≤ Role.depthList rs := Role.depth_le_of_mem_list h
    rw [User.depth]
    omega

theorem User.depth_lt_of_mem_Users {r : Role} {u : User} (h : u ∈ r.Users) :
    u.depth < r.depth := by
  cases r with
  | mk i n p us =>
    have h1 : u.depth ≤ User.depthList us := User.depth_le_of_mem_users h
    rw [Role.depth]
    omega

/-! ## The in-memory exploration backend: invariant and lookups -/

namespace MemExplorations

theorem WF_empty (t : Time) : WF (empty t) := by
  refine ⟨?_, ?_, ?_⟩
  · intro r hr
    simp [empty] at hr
  · simp [empty]
  · intro r hr
    simp [empty] at hr

theorem WF_advance (d : Nat) {s : MemExplorations} (h : WF s) : WF (advance d s) := by
  refine ⟨h.fresh, h.nodup, ?_⟩
  intro r hr
  have ht := h.times r hr
  refine ⟨ht.1, ?_⟩
  have hd : (0 : Int) ≤ (d : Int) := Int.ofNat_nonneg d
  exact le_trans ht.2 (le_add_of_nonneg_right hd)

theorem WF_Add (ctx : Context) (e : Exploration) {s : MemExplorations} (h : WF s) :
    WF (Add ctx e s).2 := by
  unfold Add
  split
  · exact h
  · split
    · exact h
    · refine ⟨?_, ?_, ?_⟩
      · intro r hr
        simp only [List.mem_append, List.mem_singleton] at hr
        rcases hr with hr | hr
        · have hf := h.fresh r hr
          show r.ID.val < s.nextID + 1
          omega
        · subst hr
          show s.nextID < s.nextID + 1
          omega
      · show ((s.rows ++ [_]).map (fun r : Exploration => r.ID)).Nodup
        rw [List.map_append, List.nodup_append]
        refine ⟨h.nodup, by simp, ?_⟩
        intro i hi hj
        simp only [List.map_cons, List.map_nil, List.mem_singleton] at hj
        obtain ⟨r, hr, hri⟩ := List.mem_map.mp hi
        have hf := h.fresh r hr
        rw [hri, hj] at hf
        simp at hf
      · intro r hr
        simp only [List.mem_append, List.mem_singleton] at hr
        rcases hr with hr | hr
        · exact h.times r hr
        · subst hr
          exact ⟨le_refl _, le_refl _⟩

theorem WF_Delete (ctx : Context) (e : Exploration) {s : MemExplorations} (h : WF s) :
    WF (Delete ctx e s).2 := by
  unfold Delete
  split
  · exact h
  · split
    · refine ⟨?_, ?_, ?_⟩
      · intro r hr
        exact h.fresh r (List.mem_filter.mp hr).1
      · exact List.Nodup.sublist (List.Sublist.map _ (List.filter_sublist _)) h.nodup
      · intro r hr
        exact h.times r (List.mem_filter.mp hr).1
    · exact h

theorem map_ID_Update (e : Exploration) (t : Time) (l : List Exploration) :
    (l.map (fun r =>
      if r.ID == e.ID then { r with Name := e.Name, Data := e.Data, UpdatedAt := t }
      else r)).map (fun r => r.ID) = l.map (fun r => r.ID) := by
  rw [List.map_map]
  apply List.map_congr_left
  intro r _
  simp only [Function.comp]
  split <;> rfl

theorem WF_Update (ctx : Context) (e : Exploration) {s : MemExplorations} (h : WF s) :
    WF (Update ctx e s).2 := by
  unfold Update
  split
  · exact h
  · split
    · refine ⟨?_, ?_, ?_⟩
      · intro r hr
        obtain ⟨q, hq, hqr⟩ := List.mem_map.mp hr
        have hf := h.fresh q hq
        have hid : r.ID = q.ID := by
          rw [← hqr]
          split <;> rfl
        show r.ID.val < s.nextID
        rw [hid]
        exact hf
      · show ((s.rows.map _).map (fun r : Exploration => r.ID)).Nodup
        rw [map_ID_Update]
        exact h.nodup
      · intro r hr
        obtain ⟨q, hq, hqr⟩ := List.mem_map.mp hr
        have ht := h.times q hq
        show r.CreatedAt ≤ r.UpdatedAt ∧ r.UpdatedAt ≤ s.now
        rw [← hqr]
        split
        · exact ⟨le_trans ht.1 ht.2, le_refl _⟩
        · exact ht
    · exact h

theorem Reachable.wf {s : MemExplorations} (h : Reachable s) : WF s := by
  induction h with
  | init t => exact WF_empty t
  | add ctx e _ ih => exact WF_Add ctx e ih
  | update ctx e _ ih => exact WF_Update ctx e ih
  | delete ctx e _ ih => exact WF_Delete ctx e ih
  | tick d _ ih => exact WF_advance d ih

theorem find_of_mem {l : List Exploration} (hn : (l.map (fun r => r.ID)).Nodup)
    {r : Exploration} (hr : r ∈ l) : l.find? (fun q => q.ID == r.ID) = some r := by
  induction l with
  | nil => cases hr
  | cons a t ih =>
    rw [List.map_cons, List.nodup_cons] at hn
    rcases List.mem_cons.mp hr with h1 | h1
    · subst h1
      simp
    · have hne : a.ID ≠ r.ID := by
        intro heq
        apply hn.1
        rw [heq]
        exact List.mem_map.mpr ⟨r, h1, rfl⟩
      rw [List.find?_cons_of_neg]
      · exact ih hn.2 h1
      · simpa using hne

theorem Get_ok_iff {s : MemExplorations} (h : WF s) {ctx : Context}
    (hc : ctx.cancelled = false) (i : ExplorationID) (r : Exploration) :
    Get ctx i s = .ok r ↔ r ∈ s.rows ∧ r.ID = i := by
  unfold Get
  rw [if_neg (by simp [hc])]
  constructor
  · intro hg
    split at hg
    · rename_i q hq
      have hqr : q = r := by
        injection hg
      subst hqr
      have h1 := List.mem_of_find?_eq_some hq
      have h2 := List.find?_some hq
      exact ⟨h1, by simpa using h2⟩
    · cases hg
  · rintro ⟨hr, hi⟩
    subst hi
    rw [find_of_mem h.nodup hr]

theorem Update_Get {s : MemExplorations} (hw : WF s) {ctx : Context} {e : Exploration}
    {s2 : MemExplorations} (h : Update ctx e s = (none, s2)) :
    ∃ r r1, Get ctx e.ID s = .ok r ∧ Get ctx e.ID s2 = .ok r1 ∧ r1.CreatedAt = r.CreatedAt ∧
      r1.Name = e.Name ∧ r1.Data = e.Data ∧ r1.UpdatedAt = s.now ∧ r.CreatedAt ≤ s.now := by
  have hw2 : WF (Update ctx e s).2 := WF_Update ctx e hw
  rw [h] at hw2
  unfold Update at h
  split at h
  · simp at h
  · rename_i hc
    have hc1 : ctx.cancelled = false := by simpa using hc
    split at h
    · rename_i hany
      simp only [Prod.mk.injEq, true_and] at h
      subst h
      obtain ⟨r, hr, hid⟩ := List.any_eq_true.mp hany
      have hid1 : r.ID = e.ID := by simpa using hid
      have ht := hw.times r hr
      refine ⟨r, { r with Name := e.Name, Data := e.Data, UpdatedAt := s.now },
        ?_, ?_, rfl, rfl, rfl, rfl, le_trans ht.1 ht.2⟩
      · rw [Get_ok_iff hw hc1]
        exact ⟨hr, hid1⟩
      · rw [Get_ok_iff hw2 hc1]
        refine ⟨?_, hid1⟩
        apply List.mem_map.mpr
        refine ⟨r, hr, ?_⟩
        simp [hid1]
    · simp at h

end MemExplorations

/-! ## Claims on the declarations -/

/-- C5: of the four Get operations exactly one returns the retrieved entity.
ExplorationStore.Get takes a context and an ExplorationID and returns an
Exploration together with an error; AuthStore.Users.Get, AuthStore.Roles.Get
and DashboardStore.Get take a context and an int and return only an error. -/
theorem Get_signatures :
    Decl.getters = ["AuthStore.Users", "AuthStore.Roles", "ExplorationStore", "DashboardStore"] ∧
    Decl.getsWithValue = ["ExplorationStore"] ∧
    Decl.method "ExplorationStore" "Get" =
      some ⟨"Get", [Decl.ctxT, .named "ExplorationID"], [.named "Exploration", .error]⟩ ∧
    Decl.method "AuthStore.Users" "Get" = some ⟨"Get", [Decl.ctxT, .int], [.error]⟩ ∧
    Decl.method "AuthStore.Roles" "Get" = some ⟨"Get", [Decl.ctxT, .int], [.error]⟩ ∧
    Decl.method "DashboardStore" "Get" = some ⟨"Get", [Decl.ctxT, .int], [.error]⟩ := by
  decide

/-- C6: UserID and ExplorationID are two distinct defined types with underlying
type int. An ExplorationID is not accepted as the argument of
ExplorationStore.Query nor in the field Exploration.UserID, a UserID is not
accepted as the argument of ExplorationStore.Get nor in the field
Exploration.ID, while a UserID and an ExplorationID are accepted in their own
places; each converts to the other by an explicit conversion. -/
theorem UserID_ExplorationID_not_interchangeable :
    Decl.identical (.named "UserID") (.named "ExplorationID") = false ∧
    Decl.underlying (.named "UserID") = .int ∧
    Decl.underlying (.named "ExplorationID") = .int ∧
    Decl.acceptsArg "ExplorationStore" "Query" 1 (.named "ExplorationID") = false ∧
    Decl.acceptsField "Exploration" "UserID" (.named "ExplorationID") = false ∧
    Decl.acceptsArg "ExplorationStore" "Get" 1 (.named "UserID") = false ∧
    Decl.acceptsField "Exploration" "ID" (.named "UserID") = false ∧
    Decl.acceptsArg "ExplorationStore" "Query" 1 (.named "UserID") = true ∧
    Decl.acceptsField "Exploration" "UserID" (.named "UserID") = true ∧
    Decl.acceptsArg "ExplorationStore" "Get" 1 (.named "ExplorationID") = true ∧
    Decl.acceptsField "Exploration" "ID" (.named "ExplorationID") = true ∧
    Decl.convertible (.named "ExplorationID") (.named "UserID") = true ∧
    Decl.convertible (.named "UserID") (.named "ExplorationID") = true := by
  decide

/-- C10: User.ID, Role.ID, Dashboard.ID and the ID parameters of
AuthStore.Users.Get, AuthStore.Roles.Get and DashboardStore.Get all have the
type int, so whatever type of value is accepted as a User ID is accepted as a
Role ID and as a Dashboard ID, and every integer is the ID of some User, Role
and Dashboard value; int is neither UserID nor ExplorationID, and the field
Exploration.UserID has type UserID, which is not the type of User.ID. -/
theorem plain_int_IDs :
    Decl.fieldType "User" "ID" = some .int ∧
    Decl.fieldType "Role" "ID" = some .int ∧
    Decl.fieldType "Dashboard" "ID" = some .int ∧
    (Decl.method "AuthStore.Users" "Get").map Method.params = some [Decl.ctxT, .int] ∧
    (Decl.method "AuthStore.Roles" "Get").map Method.params = some [Decl.ctxT, .int] ∧
    (Decl.method "DashboardStore" "Get").map Method.params = some [Decl.ctxT, .int] ∧
    (∀ t : GoType, Decl.acceptsField "User" "ID" t = Decl.acceptsField "Role" "ID" t ∧
      Decl.acceptsField "User" "ID" t = Decl.acceptsField "Dashboard" "ID" t ∧
      Decl.acceptsField "User" "ID" t = Decl.acceptsArg "AuthStore.Users" "Get" 1 t ∧
      Decl.acceptsField "User" "ID" t = Decl.acceptsArg "AuthStore.Roles" "Get" 1 t ∧
      Decl.acceptsField "User" "ID" t = Decl.acceptsArg "DashboardStore" "Get" 1 t) ∧
    (∀ i : Int, (User.mk i "" [] []).ID = i ∧ (Role.mk i "" [] []).ID = i ∧
      (Dashboard.mk i []).ID = i) ∧
    Decl.identical .int (.named "UserID") = false ∧
    Decl.identical .int (.named "ExplorationID") = false ∧
    Decl.fieldType "Exploration" "UserID" = some (.named "UserID") ∧
    Decl.fieldType "Exploration" "UserID" ≠ Decl.fieldType "User" "ID" ∧
    Decl.acceptsField "User" "ID" (.named "UserID") = false ∧
    Decl.acceptsField "Exploration" "UserID" .int = false := by
  refine ⟨by decide, by decide, by decide, by decide, by decide, by decide, ?_, ?_,
    by decide, by decide, by decide, by decide, by decide, by decide⟩
  · intro t
    refine ⟨rfl, rfl, rfl, rfl, rfl⟩
  · intro i
    exact ⟨rfl, rfl, rfl⟩

/-! ## Claims on the User and Role records -/

/-- C7, as stated, fails: adminRole is one of the Roles of alice although alice
is not among the Users of adminRole, and bob is one of the Users of staffRole
although staffRole is not among the Roles of bob. -/
theorem User_Role_not_bidirectional :
    (adminRole ∈ alice.Roles ∧ alice ∉ adminRole.Users) ∧
    (bob ∈ staffRole.Users ∧ staffRole ∉ bob.Roles) := by
  refine ⟨⟨?_, ?_⟩, ?_, ?_⟩
  · simp [alice, User.Roles]
  · simp [adminRole, Role.Users]
  · simp [staffRole, Role.Users]
  · simp [bob, User.Roles]

/-- C7, amended: the data model has a field for each direction of the User-Role
relationship, User.Roles a sequence of Role and Role.Users a sequence of User,
and each field can hold any sequence, whatever the records in it list in
return; a Role among the Roles of a User can list that User by a record with
the same ID, Name and Permissions whose own Roles are not expanded. -/
theorem User_Role_fields_both_directions :
    Decl.fieldType "User" "Roles" = some (.slice (.named "Role")) ∧
    Decl.fieldType "Role" "Users" = some (.slice (.named "User")) ∧
    (∀ (i : Int) (n : String) (p : Permissions) (rs : List Role),
      (User.mk i n p rs).Roles = rs) ∧
    (∀ (i : Int) (n : String) (p : Permissions) (us : List User),
      (Role.mk i n p us).Users = us) ∧
    (adminView ∈ aliceView.Roles ∧
      ∃ v ∈ adminView.Users, v.ID = aliceView.ID ∧ v.Name = aliceView.Name ∧
        v.Permissions = aliceView.Permissions ∧ v.Roles = []) := by
  refine ⟨by decide, by decide, ?_, ?_, ?_, ?_⟩
  · intro i n p rs
    rfl
  · intro i n p us
    rfl
  · simp [aliceView, User.Roles]
  · exact ⟨aliceEntry, by simp [adminView, Role.Users], rfl, rfl, rfl, rfl⟩

/-- C9: User and Role values have finite nesting depth: a Role among the Roles
of a User is strictly shallower than the User, a User among the Users of a Role
is strictly shallower than the Role, so no User u and Role r have r in u.Roles
and u, as a whole record, in r.Users. The depth functions are total: the
recursive expansion of a value terminates. -/
theorem no_record_contains_itself :
    (∀ (u : User) (r : Role), r ∈ u.Roles → r.depth < u.depth) ∧
    (∀ (r : Role) (u : User), u ∈ r.Users → u.depth < r.depth) ∧
    (¬ ∃ (u : User) (r : Role), r ∈ u.Roles ∧ u ∈ r.Users) := by
  refine ⟨fun u r h => Role.depth_lt_of_mem_Roles h,
    fun r u h => User.depth_lt_of_mem_Users h, ?_⟩
  rintro ⟨u, r, h1, h2⟩
  have a := Role.depth_lt_of_mem_Roles h1
  have b := User.depth_lt_of_mem_Users h2
  omega

/-- Witness of C9 at alice and adminRole, and at staffRole and bob. -/
theorem no_record_contains_itself_witness :
    adminRole ∈ alice.Roles ∧ adminRole.depth < alice.depth ∧
    bob ∈ staffRole.Users ∧ bob.depth < staffRole.depth :=
  ⟨by simp [alice, User.Roles],
    no_record_contains_itself.1 alice adminRole (by simp [alice, User.Roles]),
    by simp [staffRole, Role.Users],
    no_record_contains_itself.2.1 staffRole bob (by simp [staffRole, Role.Users])⟩

/-! ## Claims on the calls of the contracts -/

/-- C1, on the code: the result of AuthStore.Users.Get is an error only: for
every backend it is the nil error or an error kind, never a record. After a
successful Add of alice, Get on her ID succeeds with the nil error; after a
successful Add of bob instead, Get on the same ID gives the very same result,
although the two users differ in Name and Permissions: no record, hence no
Name and no Permissions, comes back from Get. -/
theorem Users_Get_returns_no_record :
    (∀ (σ : Type) (B : UsersStore σ) (ctx : Context) (ID : Int) (s : σ),
      (B.Get ctx ID s).1 = none ∨ ∃ k : ErrorKind, (B.Get ctx ID s).1 = some k) ∧
    (MemUsers.Add live alice MemUsers.empty).1 = none ∧
    (MemUsers.Add live bob MemUsers.empty).1 = none ∧
    MemUsers.Get live alice.ID (MemUsers.Add live alice MemUsers.empty).2 = none ∧
    MemUsers.Get live bob.ID (MemUsers.Add live bob MemUsers.empty).2 = none ∧
    alice.ID = bob.ID ∧ alice.Name ≠ bob.Name ∧ alice.Permissions ≠ bob.Permissions := by
  refine ⟨?_, ?_, ?_, ?_, ?_, ?_, ?_, ?_⟩
  · intro σ B ctx ID s
    cases h : (B.Get ctx ID s).1 with
    | none => exact Or.inl rfl
    | some k => exact Or.inr ⟨k, rfl⟩
  all_goals
    simp [MemUsers.Add, MemUsers.Get, MemUsers.empty, live, alice, bob, User.ID, User.Name,
      User.Permissions, User.Roles]

/-- C4: for each of the four entity types, in the in-memory backend of its
store, after a successful Delete of an entity, Get on the ID of that entity
fails with NotFoundKind. -/
theorem Delete_then_Get_NotFound (ctx : Context) :
    (∀ (u : User) (s s1 : MemUsers), MemUsers.Delete ctx u s = (none, s1) →
      MemUsers.Get ctx u.ID s1 = some .NotFoundKind) ∧
    (∀ (r : Role) (s s1 : MemRoles), MemRoles.Delete ctx r s = (none, s1) →
      MemRoles.Get ctx r.ID s1 = some .NotFoundKind) ∧
    (∀ (e : Exploration) (s s1 : MemExplorations), MemExplorations.Delete ctx e s = (none, s1) →
      MemExplorations.Get ctx e.ID s1 = .error .NotFoundKind) ∧
    (∀ (d : Dashboard) (s s1 : MemDashboards), MemDashboards.Delete ctx d s = (none, s1) →
      MemDashboards.Get ctx d.ID s1 = some .NotFoundKind) := by
  refine ⟨?_, ?_, ?_, ?_⟩
  · intro u s s1 h
    unfold MemUsers.Delete at h
    split at h
    · simp at h
    · rename_i hc
      split at h
      · simp only [Prod.mk.injEq, true_and] at h
        subst h
        simp [MemUsers.Get, hc, any_key_filter_ne User.ID u.ID s.rows]
      · simp at h
  · intro r s s1 h
    unfold MemRoles.Delete at h
    split at h
    · simp at h
    · rename_i hc
      split at h
      · simp only [Prod.mk.injEq, true_and] at h
        subst h
        simp [MemRoles.Get, hc, any_key_filter_ne Role.ID r.ID s.rows]
      · simp at h
  · intro e s s1 h
    unfold MemExplorations.Delete at h
    split at h
    · simp at h
    · rename_i hc
      split at h
      · simp only [Prod.mk.injEq, true_and] at h
        subst h
        simp [MemExplorations.Get, hc, find_key_filter_ne Exploration.ID e.ID s.rows]
      · simp at h
  · intro d s s1 h
    unfold MemDashboards.Delete at h
    split at h
    · simp at h
    · rename_i hc
      split at h
      · simp only [Prod.mk.injEq, true_and] at h
        subst h
        simp [MemDashboards.Get, hc, any_key_filter_ne Dashboard.ID d.ID s.rows]
      · simp at h

/-- Witness of C4: an entity of each type is added to the empty backend and
deleted again. -/
theorem Delete_then_Get_NotFound_witness :
    MemUsers.Get live alice.ID ⟨[], 2⟩ = some .NotFoundKind ∧
    MemRoles.Get live adminRole.ID ⟨[], 2⟩ = some .NotFoundKind ∧
    MemExplorations.Get live sketch.ID ⟨[], 2, 0⟩ = .error .NotFoundKind ∧
    MemDashboards.Get live board.ID ⟨[], 2⟩ = some .NotFoundKind :=
  ⟨(Delete_then_Get_NotFound live).1 alice
      (MemUsers.Add live alice MemUsers.empty).2 ⟨[], 2⟩ (by
        simp [MemUsers.Delete, MemUsers.Add, MemUsers.empty, live, alice, User.ID, User.Name]),
    (Delete_then_Get_NotFound live).2.1 adminRole
      (MemRoles.Add live adminRole MemRoles.empty).2 ⟨[], 2⟩ (by
        simp [MemRoles.Delete, MemRoles.Add, MemRoles.empty, live, adminRole, Role.ID,
          Role.Name]),
    (Delete_then_Get_NotFound live).2.2.1 sketch
      (MemExplorations.Add live sketch (MemExplorations.empty 0)).2 ⟨[], 2, 0⟩ (by decide),
    (Delete_then_Get_NotFound live).2.2.2 board
      (MemDashboards.Add live board MemDashboards.empty).2 ⟨[], 2⟩ (by decide)⟩

/-- C2: in every state the in-memory backend can reach, with explorations of
any number of users, Query on a context that is not cancelled succeeds, and
its result holds exactly the stored explorations (those Get returns under
their ID) whose UserID is the one asked for, each once; it is empty, not a
failure, when that user owns none. -/
theorem Query_exact {s : MemExplorations} (hs : MemExplorations.Reachable s) (ctx : Context)
    (hc : ctx.cancelled = false) (x : UserID) :
    ∃ rs, MemExplorations.Query ctx x s = .ok rs ∧
      (∀ e, e ∈ rs ↔ (MemExplorations.Get ctx e.ID s = .ok e ∧ e.UserID = x)) ∧
      rs.Nodup ∧
      ((∀ e, MemExplorations.Get ctx e.ID s = .ok e → e.UserID ≠ x) → rs = []) := by
  have hw := hs.wf
  refine ⟨s.rows.filter (fun r => r.UserID == x), ?_, ?_, ?_, ?_⟩
  · unfold MemExplorations.Query
    rw [if_neg (by simp [hc])]
  · intro e
    rw [MemExplorations.Get_ok_iff hw hc, List.mem_filter]
    simp
  · exact (List.Nodup.of_map _ hw.nodup).filter _
  · intro h
    rw [List.filter_eq_nil_iff]
    intro e he
    have hg : MemExplorations.Get ctx e.ID s = .ok e :=
      (MemExplorations.Get_ok_iff hw hc e.ID e).mpr ⟨he, rfl⟩
    simpa using h e hg

/-- Witness of C2 on a population of three explorations of users 7 and 8,
queried for user 7 and for user 9, who owns none. -/
theorem Query_exact_witness :
    (∃ rs, MemExplorations.Query live ⟨7⟩ population = .ok rs ∧
      (∀ e, e ∈ rs ↔ (MemExplorations.Get live e.ID population = .ok e ∧ e.UserID = ⟨7⟩)) ∧
      rs.Nodup ∧
      ((∀ e, MemExplorations.Get live e.ID population = .ok e → e.UserID ≠ ⟨7⟩) → rs = [])) ∧
    MemExplorations.Query live ⟨7⟩ population =
      .ok [⟨⟨1⟩, "cpu", ⟨7⟩, "blob", 0, 0⟩, ⟨⟨2⟩, "disk", ⟨7⟩, "blob", 2, 2⟩] ∧
    MemExplorations.Query live ⟨9⟩ population = .ok [] :=
  ⟨Query_exact
      (MemExplorations.Reachable.add live _ (MemExplorations.Reachable.tick 3
        (MemExplorations.Reachable.add live _ (MemExplorations.Reachable.tick 2
          (MemExplorations.Reachable.add live sketch (MemExplorations.Reachable.init 0))))))
      live rfl ⟨7⟩,
    rfl, rfl⟩

/-- C3, as stated, fails: sketch is added to the empty backend at clock reading
0 and updated at the same reading; both calls succeed, and the record Get
returns for its ID after the Update has UpdatedAt equal to CreatedAt, not
later. So it is not the case that in every reachable state a successful Update
leaves a record whose UpdatedAt is strictly later than its CreatedAt. -/
theorem Update_at_same_reading_not_later :
    (MemExplorations.Add live sketch (MemExplorations.empty 0) = (none, added) ∧
      MemExplorations.Get live sketch.ID added = .ok ⟨⟨1⟩, "cpu", ⟨7⟩, "blob", 0, 0⟩ ∧
      MemExplorations.Update live sketch added = (none, sameReading) ∧
      MemExplorations.Get live sketch.ID sameReading = .ok ⟨⟨1⟩, "cpu", ⟨7⟩, "blob", 0, 0⟩) ∧
    ¬ (∀ (s : MemExplorations), MemExplorations.Reachable s →
        ∀ (ctx : Context) (e : Exploration) (s2 : MemExplorations),
          MemExplorations.Update ctx e s = (none, s2) →
          ∃ r1, MemExplorations.Get ctx e.ID s2 = .ok r1 ∧ r1.CreatedAt < r1.UpdatedAt) := by
  refine ⟨⟨by decide, rfl, by decide, rfl⟩, ?_⟩
  intro h
  obtain ⟨r1, hg, hlt⟩ := h added
    (MemExplorations.Reachable.add live sketch (MemExplorations.Reachable.init 0))
    live sketch sameReading (by decide)
  have hg2 : MemExplorations.Get live sketch.ID sameReading =
      .ok ⟨⟨1⟩, "cpu", ⟨7⟩, "blob", 0, 0⟩ := rfl
  rw [hg2] at hg
  injection hg with hg
  subst hg
  exact absurd hlt (by decide)

/-- C3, amended: in every state the in-memory backend can reach, the record Get
returns (under the assigned ID) after a successful Add has CreatedAt equal to
UpdatedAt; after a successful Update the record Get returns for the updated ID
has the CreatedAt it had before the Update and the clock reading of the Update
as UpdatedAt, which is never earlier than CreatedAt and is strictly later when
the clock has advanced since the record was created; it is strictly later in
particular when the clock has advanced since the previous call. -/
theorem Exploration_timestamps {s : MemExplorations} (hs : MemExplorations.Reachable s)
    (ctx : Context) :
    (∀ (e : Exploration) (s1 : MemExplorations), MemExplorations.Add ctx e s = (none, s1) →
      ∃ r, MemExplorations.Get ctx ⟨s.nextID⟩ s1 = .ok r ∧ r.Name = e.Name ∧
        r.UserID = e.UserID ∧ r.Data = e.Data ∧ r.CreatedAt = r.UpdatedAt) ∧
    (∀ (e : Exploration) (s2 : MemExplorations),
      MemExplorations.Update ctx e s = (none, s2) →
      ∃ r r1, MemExplorations.Get ctx e.ID s = .ok r ∧
        MemExplorations.Get ctx e.ID s2 = .ok r1 ∧ r1.CreatedAt = r.CreatedAt ∧
        r1.Name = e.Name ∧ r1.Data = e.Data ∧ r1.UpdatedAt = s.now ∧
        r1.CreatedAt ≤ r1.UpdatedAt ∧ (r.CreatedAt < s.now → r1.CreatedAt < r1.UpdatedAt)) ∧
    (∀ (d : Nat) (e : Exploration) (s2 : MemExplorations),
      MemExplorations.Update ctx e (MemExplorations.advance (d + 1) s) = (none, s2) →
      ∃ r r1, MemExplorations.Get ctx e.ID (MemExplorations.advance (d + 1) s) = .ok r ∧
        MemExplorations.Get ctx e.ID s2 = .ok r1 ∧ r1.CreatedAt = r.CreatedAt ∧
        r1.Name = e.Name ∧ r1.Data = e.Data ∧ r1.CreatedAt < r1.UpdatedAt) := by
  have hw := hs.wf
  refine ⟨?_, ?_, ?_⟩
  · intro e s1 h
    have hw1 : MemExplorations.WF (MemExplorations.Add ctx e s).2 :=
      MemExplorations.WF_Add ctx e hw
    rw [h] at hw1
    unfold MemExplorations.Add at h
    split at h
    · simp at h
    · rename_i hc
      split at h
      · simp at h
      · simp only [Prod.mk.injEq, true_and] at h
        subst h
        refine ⟨{ e with ID := ⟨s.nextID⟩, CreatedAt := s.now, UpdatedAt := s.now }, ?_,
          rfl, rfl, rfl, rfl⟩
        rw [MemExplorations.Get_ok_iff hw1 (by simpa using hc)]
        exact ⟨by simp, rfl⟩
  · intro e s2 h
    obtain ⟨r, r1, hg, hg1, hc, hn, hd, hu, hle⟩ := MemExplorations.Update_Get hw h
    refine ⟨r, r1, hg, hg1, hc, hn, hd, hu, ?_, ?_⟩
    · rw [hc, hu]
      exact hle
    · intro hlt
      rw [hc, hu]
      exact hlt
  · intro d e s2 h
    have hwa : MemExplorations.WF (MemExplorations.advance (d + 1) s) :=
      MemExplorations.WF_advance (d + 1) hw
    obtain ⟨r, r1, hg, hg1, hc, hn, hd, hu, _⟩ := MemExplorations.Update_Get hwa h
    refine ⟨r, r1, hg, hg1, hc, hn, hd, ?_⟩
    have hg0 := (MemExplorations.Get_ok_iff hwa
      (by
        cases hcc : ctx.cancelled with
        | false => rfl
        | true => simp [MemExplorations.Get, hcc] at hg) e.ID r).mp hg
    have hr0 : r ∈ s.rows := hg0.1
    have ht := hw.times r hr0
    rw [hc, hu]
    show r.CreatedAt < s.now + ((d + 1 : Nat) : Int)
    have h1 : r.CreatedAt ≤ s.now := le_trans ht.1 ht.2
    have h2 : (0 : Int) < ((d + 1 : Nat) : Int) := by exact_mod_cast Nat.succ_pos d
    exact lt_of_le_of_lt h1 (lt_add_of_pos_right _ h2)

/-- Witness of C3, amended: sketch is added to the empty backend at time 0; it
is updated at the same reading, and updated one clock unit later. -/
theorem Exploration_timestamps_witness :
    (∃ r, MemExplorations.Get live ⟨1⟩ added = .ok r ∧ r.Name = sketch.Name ∧
      r.UserID = sketch.UserID ∧ r.Data = sketch.Data ∧ r.CreatedAt = r.UpdatedAt) ∧
    (∃ r r1, MemExplorations.Get live sketch.ID added = .ok r ∧
      MemExplorations.Get live sketch.ID sameReading = .ok r1 ∧ r1.CreatedAt = r.CreatedAt ∧
      r1.Name = sketch.Name ∧ r1.Data = sketch.Data ∧ r1.UpdatedAt = added.now ∧
      r1.CreatedAt ≤ r1.UpdatedAt ∧ (r.CreatedAt < added.now → r1.CreatedAt < r1.UpdatedAt)) ∧
    (∃ r r1, MemExplorations.Get live ⟨1⟩ (MemExplorations.advance 1 added) = .ok r ∧
      MemExplorations.Get live ⟨1⟩ updated = .ok r1 ∧ r1.CreatedAt = r.CreatedAt ∧
      r1.Name = "cpu2" ∧ r1.Data = sketch.Data ∧ r1.CreatedAt < r1.UpdatedAt) :=
  ⟨(Exploration_timestamps (MemExplorations.Reachable.init 0) live).1 sketch added (by decide),
    (Exploration_timestamps
      (MemExplorations.Reachable.add live sketch (MemExplorations.Reachable.init 0)) live).2.1
      sketch sameReading (by decide),
    (Exploration_timestamps
      (MemExplorations.Reachable.add live sketch (MemExplorations.Reachable.init 0)) live).2.2
      0 { sketch with Name := "cpu2" } updated (by decide)⟩

/-- C8, as stated, fails for the records with slice fields: a body of Users.Add
that writes the first element of the Permissions of its argument changes what
the caller reads through its own record, from read to admin, although the
call returns nil; likewise a body of DashboardStore.Add changes the first cell
of the caller. So it is not the case that for every backend the permissions of
the caller's User are the same before and after the call. -/
theorem Add_can_overwrite_slice_elements :
    (aliceHeap.permissionsOf aliceFrame.e.Permissions = [⟨"read"⟩] ∧
      (aliceFrame.callAdd scribbleUsers live aliceHeap ()).2.1.permissionsOf
        (aliceFrame.callAdd scribbleUsers live aliceHeap ()).1.e.Permissions = [⟨"admin"⟩] ∧
      (aliceFrame.callAdd scribbleUsers live aliceHeap ()).1.err = none) ∧
    (boardHeap.cellsOf boardFrame.e.Cells = [⟨0, 0, 4, 2, ⟨0, 0, 1, 1⟩⟩] ∧
      (boardFrame.callAdd scribbleDashboards live boardHeap ()).2.1.cellsOf
        (boardFrame.callAdd scribbleDashboards live boardHeap ()).1.e.Cells =
          [⟨9, 9, 9, 9, ⟨0, 0, 0, 0⟩⟩] ∧
      (boardFrame.callAdd scribbleDashboards live boardHeap ()).1.err = none) ∧
    ¬ (∀ (σ : Type) (add : AddBody UserValue σ) (ctx : Context) (c : Caller UserValue)
        (h : Heap) (s : σ),
        (c.callAdd add ctx h s).2.1.permissionsOf (c.callAdd add ctx h s).1.e.Permissions =
          h.permissionsOf c.e.Permissions) := by
  refine ⟨by decide, by decide, ?_⟩
  intro hall
  have h1 := hall Unit scribbleUsers live aliceFrame aliceHeap ()
  revert h1
  decide

/-- C8, amended: each of the four Add methods takes the entity by value (a
struct type, not a pointer) next to the context and has the error as its only
result. Around err = store.Add(ctx, e), for every body of Add, the struct value
of the caller's record is the same after the call as before: its ID and Name
and the descriptors of its slice fields for a User, Role or Dashboard, and the
whole record, with ID, CreatedAt and UpdatedAt, for an Exploration, which has
no slice field. All the caller receives is the error: a body that stores the
assigned ID in its parameter leaves the ID of the caller as it was, and the
in-memory dashboard backend returns the same nil error whether it assigns ID 5
or ID 9. The elements of the slice fields are left out: the method shares
them with the caller. -/
theorem Add_leaves_caller_record :
    Decl.method "AuthStore.Users" "Add" = some ⟨"Add", [Decl.ctxT, .named "User"], [.error]⟩ ∧
    Decl.method "AuthStore.Roles" "Add" = some ⟨"Add", [Decl.ctxT, .named "Role"], [.error]⟩ ∧
    Decl.method "ExplorationStore" "Add" =
      some ⟨"Add", [Decl.ctxT, .named "Exploration"], [.error]⟩ ∧
    Decl.method "DashboardStore" "Add" =
      some ⟨"Add", [Decl.ctxT, .named "Dashboard"], [.error]⟩ ∧
    (∀ (σ : Type) (add : AddBody UserValue σ) (ctx : Context) (c : Caller UserValue)
        (h : Heap) (s : σ),
      (c.callAdd add ctx h s).1.e = c.e ∧ (c.callAdd add ctx h s).1.e.ID = c.e.ID ∧
      (c.callAdd add ctx h s).1.err = (add ctx c.e h s).2.1) ∧
    (∀ (σ : Type) (add : AddBody RoleValue σ) (ctx : Context) (c : Caller RoleValue)
        (h : Heap) (s : σ),
      (c.callAdd add ctx h s).1.e = c.e ∧ (c.callAdd add ctx h s).1.e.ID = c.e.ID ∧
      (c.callAdd add ctx h s).1.err = (add ctx c.e h s).2.1) ∧
    (∀ (σ : Type) (add : AddBody Exploration σ) (ctx : Context) (c : Caller Exploration)
        (h : Heap) (s : σ),
      (c.callAdd add ctx h s).1.e = c.e ∧ (c.callAdd add ctx h s).1.e.ID = c.e.ID ∧
      (c.callAdd add ctx h s).1.e.CreatedAt = c.e.CreatedAt ∧
      (c.callAdd add ctx h s).1.e.UpdatedAt = c.e.UpdatedAt ∧
      (c.callAdd add ctx h s).1.err = (add ctx c.e h s).2.1) ∧
    (∀ (σ : Type) (add : AddBody DashboardValue σ) (ctx : Context) (c : Caller DashboardValue)
        (h : Heap) (s : σ),
      (c.callAdd add ctx h s).1.e = c.e ∧ (c.callAdd add ctx h s).1.e.ID = c.e.ID ∧
      (c.callAdd add ctx h s).1.err = (add ctx c.e h s).2.1) ∧
    ((assignUsers live aliceFrame.e aliceHeap 5).1.ID = 5 ∧
      (aliceFrame.callAdd assignUsers live aliceHeap 5).1.e.ID = 1 ∧
      (aliceFrame.callAdd assignUsers live aliceHeap 5).1.err = none ∧
      (aliceFrame.callAdd assignUsers live aliceHeap 5).2.1 = aliceHeap) ∧
    ((MemDashboards.Add live board ⟨[], 5⟩).1 = (MemDashboards.Add live board ⟨[], 9⟩).1 ∧
      (MemDashboards.Add live board ⟨[], 5⟩).2.rows = [{ board with ID := 5 }] ∧
      (MemDashboards.Add live board ⟨[], 9⟩).2.rows = [{ board with ID := 9 }]) := by
  refine ⟨by decide, by decide, by decide, by decide, ?_, ?_, ?_, ?_, by decide, by decide⟩
  · intro σ add ctx c h s
    exact ⟨rfl, rfl, rfl⟩
  · intro σ add ctx c h s
    exact ⟨rfl, rfl, rfl⟩
  · intro σ add ctx c h s
    exact ⟨rfl, rfl, rfl, rfl, rfl⟩
  · intro σ add ctx c h s
    exact ⟨rfl, rfl, rfl⟩

end Mrfusion
